import Mathlib

/-!
Verification development for the multi-agent orchestrator `multi_claude.py`.

The Python source is shallowly embedded: file-based state becomes explicit
list-of-records state passing, wall-clock instants become integers (seconds),
strings stay strings (or lists of characters where character-level reasoning
is needed), and code that can raise returns `Except`.
-/

namespace Builder

/-- A work-claim record, the content of one `{uid}.lock` file in the
work-claims directory (`CoordinationManager.claim_work`). -/
structure LockData where
  agent : String
  files : List String
  description : String
  timestamp : Int
deriving DecidableEq, Repr

/-- Embedding of `any(f in lock_data["files"] for f in files)`: does the
requested file list intersect the lock's file list? -/
def filesOverlap (lockFiles reqFiles : List String) : Bool :=
  reqFiles.any (fun f => lockFiles.contains f)

/-- The scan loop of `CoordinationManager.claim_work`: walk the recorded
claims in order; delete a stale (> 7200 s old) intersecting claim and keep
scanning; stop with `false` at the first unexpired intersecting claim
(later records are left untouched); keep non-intersecting claims.
Returns (no conflict found, store after the deletions performed). -/
def claimScan (now : Int) (files : List String) : List LockData → Bool × List LockData
  | [] => (true, [])
  | l :: rest =>
    if filesOverlap l.files files then
      if now - l.timestamp > 7200 then claimScan now files rest
      else (false, l :: rest)
    else
      let r := claimScan now files rest
      (r.1, l :: r.2)

/-- Embedding of `CoordinationManager.claim_work`: scan all claims; on
success write a new record keyed by `uid` (the filesystem write to
`{uid}.lock` replaces any existing record with that key). -/
def claim_work (now : Int) (uid : String) (files : List String) (desc : String)
    (store : List LockData) : Bool × List LockData :=
  let s := claimScan now files store
  if s.1 then (true, s.2.filter (fun l => l.agent != uid) ++ [⟨uid, files, desc, now⟩])
  else (false, s.2)

/-- Embedding of `CoordinationManager.release_work`: delete the `{uid}.lock`
record if present (a no-op when absent). -/
def release_work (uid : String) (store : List LockData) : List LockData :=
  store.filter (fun l => l.agent != uid)

/-- The scan reports a conflict exactly when some recorded claim intersects
the requested files and is at most 7200 seconds old. -/
theorem claimScan_false_iff (now : Int) (files : List String) (store : List LockData) :
    (claimScan now files store).1 = false ↔
      ∃ l ∈ store, filesOverlap l.files files = true ∧ now - l.timestamp ≤ 7200 := by
  induction store with
  | nil => simp [claimScan]
  | cons l rest ih =>
    rw [claimScan]
    by_cases hov : filesOverlap l.files files = true
    · by_cases hst : now - l.timestamp > 7200
      · rw [if_pos hov, if_pos hst, ih]
        constructor
        · rintro ⟨m, hm, h1, h2⟩
          exact ⟨m, List.mem_cons_of_mem _ hm, h1, h2⟩
        · rintro ⟨m, hm, h1, h2⟩
          rcases List.mem_cons.mp hm with h | h
          · subst h; omega
          · exact ⟨m, h, h1, h2⟩
      · rw [if_pos hov, if_neg hst]
        constructor
        · intro _
          exact ⟨l, List.mem_cons_self _ _, hov, by omega⟩
        · intro _; rfl
    · rw [if_neg hov]
      simp only
      rw [ih]
      constructor
      · rintro ⟨m, hm, h1, h2⟩
        exact ⟨m, List.mem_cons_of_mem _ hm, h1, h2⟩
      · rintro ⟨m, hm, h1, h2⟩
        rcases List.mem_cons.mp hm with h | h
        · subst h; exact absurd h1 hov
        · exact ⟨m, h, h1, h2⟩

/-- On a conflict-free scan, exactly the intersecting (hence stale) claims
have been deleted. -/
theorem claimScan_true_store (now : Int) (files : List String) (store : List LockData)
    (h : (claimScan now files store).1 = true) :
    (claimScan now files store).2 = store.filter (fun l => !filesOverlap l.files files) := by
  induction store with
  | nil => simp [claimScan]
  | cons l rest ih =>
    by_cases hov : filesOverlap l.files files = true
    · by_cases hst : now - l.timestamp > 7200
      · rw [claimScan, if_pos hov, if_pos hst] at h ⊢
        rw [ih h, List.filter_cons]
        simp [hov]
      · rw [claimScan, if_pos hov, if_neg hst] at h
        exact absurd h (by simp)
    · rw [claimScan, if_neg hov] at h ⊢
      simp only at h ⊢
      rw [ih h, List.filter_cons]
      simp [hov]

/-- On a failed scan the store splits around the blocking claim: every
intersecting claim before the first unexpired intersecting claim has been
deleted, the blocker and everything after it are untouched. -/
theorem claimScan_false_store (now : Int) (files : List String) (store : List LockData)
    (h : (claimScan now files store).1 = false) :
    ∃ pre blocker post,
      store = pre ++ blocker :: post ∧
      filesOverlap blocker.files files = true ∧
      now - blocker.timestamp ≤ 7200 ∧
      (∀ l ∈ pre, filesOverlap l.files files = true → now - l.timestamp > 7200) ∧
      (claimScan now files store).2
        = pre.filter (fun l => !filesOverlap l.files files) ++ blocker :: post := by
  induction store with
  | nil => simp [claimScan] at h
  | cons l rest ih =>
    rw [claimScan] at h
    by_cases hov : filesOverlap l.files files = true
    · by_cases hst : now - l.timestamp > 7200
      · rw [if_pos hov, if_pos hst] at h
        obtain ⟨pre, blocker, post, he, h1, h2, h3, h4⟩ := ih h
        refine ⟨l :: pre, blocker, post, by rw [he, List.cons_append], h1, h2, ?_, ?_⟩
        · intro m hm hmo
          rcases List.mem_cons.mp hm with hh | hh
          · subst hh; exact hst
          · exact h3 m hh hmo
        · rw [claimScan, if_pos hov, if_pos hst, h4, List.filter_cons]
          simp [hov]
      · rw [if_pos hov, if_neg hst] at h
        refine ⟨[], l, rest, rfl, hov, by omega, by simp, ?_⟩
        rw [claimScan, if_pos hov, if_neg hst]
        simp
    · rw [if_neg hov] at h
      simp only at h
      obtain ⟨pre, blocker, post, he, h1, h2, h3, h4⟩ := ih h
      refine ⟨l :: pre, blocker, post, by rw [he, List.cons_append], h1, h2, ?_, ?_⟩
      · intro m hm hmo
        rcases List.mem_cons.mp hm with hh | hh
        · subst hh; exact absurd hmo hov
        · exact h3 m hh hmo
      · rw [claimScan, if_neg hov]
        simp only
        rw [h4, List.filter_cons]
        simp [hov]

/-- A successful claim_work implies a conflict-free scan. -/
theorem claim_work_true_scan (now : Int) (uid : String) (files : List String)
    (desc : String) (store : List LockData)
    (h : (claim_work now uid files desc store).1 = true) :
    (claimScan now files store).1 = true := by
  by_cases hs : (claimScan now files store).1 = true
  · exact hs
  · rw [claim_work, if_neg hs] at h
    simp at h

/-- C1 (amended): claim_work returns false iff some recorded claim whose file
set intersects the requested files has age at most 7200 seconds.  On success
the resulting store is the old store minus every intersecting (necessarily
stale) claim and minus any record keyed by the caller's uid, plus the freshly
written record `{uid, files, description, now}`.  On failure only the stale
intersecting claims scanned before the first unexpired intersecting claim
have been deleted; the blocking claim and everything after it survive. -/
theorem claim_work_contract (now : Int) (uid : String) (files : List String)
    (desc : String) (store : List LockData) :
    ((claim_work now uid files desc store).1 = false ↔
       ∃ l ∈ store, filesOverlap l.files files = true ∧ now - l.timestamp ≤ 7200) ∧
    ((claim_work now uid files desc store).1 = true →
       (claim_work now uid files desc store).2
         = store.filter (fun l => l.agent != uid && !filesOverlap l.files files)
             ++ [⟨uid, files, desc, now⟩]) ∧
    ((claim_work now uid files desc store).1 = false →
       ∃ pre blocker post,
         store = pre ++ blocker :: post ∧
         filesOverlap blocker.files files = true ∧
         now - blocker.timestamp ≤ 7200 ∧
         (∀ l ∈ pre, filesOverlap l.files files = true → now - l.timestamp > 7200) ∧
         (claim_work now uid files desc store).2
           = pre.filter (fun l => !filesOverlap l.files files) ++ blocker :: post) := by
  by_cases hs : (claimScan now files store).1 = true
  · have hnot : ¬ ∃ l ∈ store, filesOverlap l.files files = true ∧
        now - l.timestamp ≤ 7200 := by
      rw [← claimScan_false_iff]
      simp [hs]
    refine ⟨?_, ?_, ?_⟩
    · rw [claim_work, if_pos hs]
      simpa using hnot
    · intro _
      rw [claim_work, if_pos hs, claimScan_true_store now files store hs,
        List.filter_filter]
    · intro hfalse
      rw [claim_work, if_pos hs] at hfalse
      simp at hfalse
  · have hs2 : (claimScan now files store).1 = false := by
      revert hs
      cases (claimScan now files store).1 <;> simp
    refine ⟨?_, ?_, ?_⟩
    · rw [claim_work, if_neg hs]
      simpa using (claimScan_false_iff now files store).mp hs2
    · intro htrue
      rw [claim_work, if_neg hs] at htrue
      simp at htrue
    · intro _
      obtain ⟨pre, blocker, post, he, h1, h2, h3, h4⟩ :=
        claimScan_false_store now files store hs2
      exact ⟨pre, blocker, post, he, h1, h2, h3, by rw [claim_work, if_neg hs]; exact h4⟩

/-- C1 counterexample: an unexpired intersecting claim is scanned before a
stale intersecting claim, so claim_work returns false while the stale
intersecting claim survives the scan — refuting "every intersecting claim
older than 7200 seconds is deleted during the scan". -/
theorem claim_work_stale_survives :
    (claim_work 100 "c" ["x"] "d"
        [⟨"a", ["x"], "d", 0⟩, ⟨"b", ["x"], "d", -8000⟩]).1 = false ∧
    (⟨"b", ["x"], "d", -8000⟩ : LockData) ∈
      (claim_work 100 "c" ["x"] "d"
        [⟨"a", ["x"], "d", 0⟩, ⟨"b", ["x"], "d", -8000⟩]).2 ∧
    filesOverlap ["x"] ["x"] = true ∧ (100 : Int) - (-8000) > 7200 := by
  decide

/-- Companion witness for the success branch of claim_work_contract. -/
theorem claim_work_contract_witness :
    (claim_work 10 "u" ["f"] "d" []).2 = [⟨"u", ["f"], "d", 10⟩] := by
  have h := (claim_work_contract 10 "u" ["f"] "d" []).2.1 (by decide)
  simpa using h

/-- C7: release_work removes the uid's claim record, is idempotent, is a
no-op when no record for the uid exists, and immediately afterwards a claim
on the same files by any other uid succeeds, provided the released claim was
the only recorded claim intersecting those files. -/
theorem release_work_contract (uid1 uid2 : String) (now : Int) (F : List String)
    (d : String) (s : List LockData)
    (honly : ∀ l ∈ s, filesOverlap l.files F = true → l.agent = uid1) :
    (∀ l ∈ release_work uid1 s, l.agent ≠ uid1) ∧
    release_work uid1 (release_work uid1 s) = release_work uid1 s ∧
    ((∀ l ∈ s, l.agent ≠ uid1) → release_work uid1 s = s) ∧
    (claim_work now uid2 F d (release_work uid1 s)).1 = true := by
  refine ⟨?_, ?_, ?_, ?_⟩
  · intro l hl
    have := List.mem_filter.mp hl
    simpa using this.2
  · simp only [release_work, List.filter_filter]
    simp
  · intro hno
    rw [release_work]
    apply List.filter_eq_self.mpr
    intro l hl
    simpa using hno l hl
  · have hscan : (claimScan now F (release_work uid1 s)).1 = true := by
      by_cases hb : (claimScan now F (release_work uid1 s)).1 = false
      · obtain ⟨l, hl, hov, _⟩ := (claimScan_false_iff now F _).mp hb
        have hmem := List.mem_filter.mp hl
        have hne : l.agent ≠ uid1 := by simpa using hmem.2
        exact absurd (honly l hmem.1 hov) hne
      · revert hb
        cases (claimScan now F (release_work uid1 s)).1 <;> simp
    rw [claim_work, if_pos hscan]

/-- Companion witness for release_work_contract. -/
theorem release_work_contract_witness :
    (claim_work 10 "u2" ["f"] "d" (release_work "u1" [⟨"u1", ["f"], "d", 0⟩])).1
      = true :=
  (release_work_contract "u1" "u2" 10 ["f"] "d" [⟨"u1", ["f"], "d", 0⟩]
    (by decide)).2.2.2

/-- C10: claim records are keyed by uid, so a successful second claim by the
same uid leaves exactly one record for that uid — the new one — and every
file of the overwritten earlier claim that is not re-claimed is afterwards
claimed by nobody, although release_work was never called. -/
theorem claim_work_overwrites (now : Int) (uid : String) (files2 : List String)
    (d : String) (s : List LockData) (c1 : LockData)
    (_hc1 : c1 ∈ s) (_hag : c1.agent = uid)
    (hsucc : (claim_work now uid files2 d s).1 = true) :
    ((claim_work now uid files2 d s).2.countP (fun l => l.agent == uid) = 1) ∧
    (∀ l ∈ (claim_work now uid files2 d s).2,
       l.agent = uid → l = ⟨uid, files2, d, now⟩) ∧
    (∀ f ∈ c1.files, f ∉ files2 → (∀ l ∈ s, f ∈ l.files → l.agent = uid) →
       ∀ l ∈ (claim_work now uid files2 d s).2, f ∉ l.files) := by
  have hscan := claim_work_true_scan now uid files2 d s hsucc
  have hres : (claim_work now uid files2 d s).2
      = (s.filter (fun l => !filesOverlap l.files files2)).filter
          (fun l => l.agent != uid) ++ [⟨uid, files2, d, now⟩] := by
    rw [claim_work, if_pos hscan, claimScan_true_store now files2 s hscan]
  refine ⟨?_, ?_, ?_⟩
  · rw [hres, List.countP_append]
    have hzero : (List.countP (fun l => l.agent == uid)
        ((s.filter (fun l => !filesOverlap l.files files2)).filter
          (fun l => l.agent != uid))) = 0 := by
      apply List.countP_eq_zero.mpr
      intro l hl
      have := (List.mem_filter.mp hl).2
      simp at this ⊢
      exact this
    rw [hzero]
    simp
  · intro l hl heq
    rw [hres] at hl
    rcases List.mem_append.mp hl with hmem | hmem
    · have := (List.mem_filter.mp hmem).2
      simp [heq] at this
    · simpa using hmem
  · intro f hf hfn hunique l hl
    rw [hres] at hl
    rcases List.mem_append.mp hl with hmem | hmem
    · have h1 := List.mem_filter.mp hmem
      have h2 := List.mem_filter.mp h1.1
      have hne : l.agent ≠ uid := by simpa using h1.2
      intro hfl
      exact hne (hunique l h2.1 hfl)
    · have hl2 : l = ⟨uid, files2, d, now⟩ := by simpa using hmem
      rw [hl2]
      exact hfn

/-- Companion witness for claim_work_overwrites. -/
theorem claim_work_overwrites_witness :
    ((claim_work 10 "u" ["b"] "d" [⟨"u", ["a"], "d", 0⟩]).2.countP
      (fun l => l.agent == "u") = 1) :=
  (claim_work_overwrites 10 "u" ["b"] "d" [⟨"u", ["a"], "d", 0⟩]
    ⟨"u", ["a"], "d", 0⟩ (by decide) rfl (by decide)).1

/-! ### Prompt parsing (`PromptParser.parse_text`)

Characters are modelled as Lean `Char`, strings character-by-character as
`List Char`; `isdigit` is modelled on its ASCII fragment. -/

/-- Individual build step (dataclass `BuildStep`). -/
structure BuildStep where
  number : Nat
  content : List Char
  description : Option (List Char)
deriving DecidableEq, Repr

/-- Complete prompt with optional steps (dataclass `BuildPrompt`). -/
structure BuildPrompt where
  initial_prompt : List Char
  steps : List BuildStep
  name : List Char
deriving DecidableEq, Repr

/-- Default for the `name` field of `BuildPrompt`. -/
def defaultTaskName : List Char := "Multi-Agent Task".data

/-- The characters Python's `str.strip()` removes. -/
def isPySpace (c : Char) : Bool :=
  c = ' ' || c = '\t' || c = '\n' || c = '\r' || c = '\x0b' || c = '\x0c'

/-- Python `str.strip()`: drop leading and trailing whitespace. -/
def pyStrip (s : List Char) : List Char :=
  ((s.dropWhile isPySpace).reverse.dropWhile isPySpace).reverse

/-- Python `str.split('\n')`. -/
def splitLines : List Char → List (List Char)
  | [] => [[]]
  | c :: rest =>
    if c = '\n' then [] :: splitLines rest
    else
      match splitLines rest with
      | [] => [[c]]
      | l :: ls => (c :: l) :: ls

/-- Python `'. ' in s`: does ". " occur as a substring? -/
def hasDotSpace : List Char → Bool
  | '.' :: ' ' :: _ => true
  | _ :: rest => hasDotSpace rest
  | [] => false

/-- Python `str.split('. ', 1)`: the parts before and after the first
occurrence of ". ", or none when ". " does not occur (so that the split
would return a single part). -/
def splitDotSpace : List Char → Option (List Char × List Char)
  | '.' :: ' ' :: rest => some ([], rest)
  | c :: rest =>
    match splitDotSpace rest with
    | some (a, b) => some (c :: a, b)
    | none => none
  | [] => none

/-- Tail of the body of a base-10 Python int literal: digits with single
interior underscores, as accepted by `int(str)`. -/
def pyDigitsTail : List Char → Bool
  | [] => true
  | ['_'] => false
  | '_' :: c :: rest => c.isDigit && pyDigitsTail rest
  | c :: rest => c.isDigit && pyDigitsTail rest

/-- Body of a base-10 Python int literal: nonempty, digits with single
interior underscores. -/
def pyDigitsOk : List Char → Bool
  | [] => false
  | c :: rest => c.isDigit && pyDigitsTail rest

/-- Numeric value of a digit string once underscores are removed. -/
def digitsVal (s : List Char) : Nat :=
  (s.filter (fun c => c != '_')).foldl (fun acc c => 10 * acc + (c.toNat - 48)) 0

/-- Embedding of Python `int(str)` in base 10: strip whitespace, optional
sign, then digits with underscores; `none` when `int()` raises ValueError. -/
def pyInt (s : List Char) : Option Int :=
  match pyStrip s with
  | '+' :: r => if pyDigitsOk r then some (digitsVal r : Int) else none
  | '-' :: r => if pyDigitsOk r then some (-(digitsVal r : Int)) else none
  | r => if pyDigitsOk r then some (digitsVal r : Int) else none

/-- The guard of the first loop of `parse_text`:
`line.strip() and line.strip()[0].isdigit() and '. ' in line` — note that
". " is looked for in the original, unstripped line. -/
def isStepStartLine (line : List Char) : Bool :=
  let st := pyStrip line
  (!st.isEmpty) && (st.headD ' ').isDigit && hasDotSpace line

/-- Step extraction for one line of the step region (second loop of
`parse_text`): the line is stripped and all three guard tests rerun on the
stripped line; the part before the first ". " must then parse as a Python
int, otherwise `int()` raises and the whole parse fails. -/
def lineToStep (line : List Char) : Except Unit (Option BuildStep) :=
  let l := pyStrip line
  if (!l.isEmpty) && (l.headD ' ').isDigit && hasDotSpace l then
    match splitDotSpace l with
    | some (a, b) =>
      match pyInt a with
      | some n => .ok (some ⟨n.toNat, b, none⟩)
      | none => .error ()
    | none => .ok none
  else .ok none

/-- The steps of the step region, failing at the first line whose numeric
prefix `int()` cannot parse. -/
def collectSteps : List (List Char) → Except Unit (List BuildStep)
  | [] => .ok []
  | line :: rest =>
    match lineToStep line with
    | .error e => .error e
    | .ok s =>
      match collectSteps rest with
      | .error e => .error e
      | .ok others =>
        match s with
        | some st => .ok (st :: others)
        | none => .ok others

/-- Embedding of `PromptParser.parse_text`. -/
def parse_text (content : List Char) : Except Unit BuildPrompt :=
  let lines := splitLines (pyStrip content)
  match lines.findIdx? isStepStartLine with
  | none => .ok ⟨pyStrip (List.intercalate ['\n'] lines), [], defaultTaskName⟩
  | some k =>
    (collectSteps (lines.drop k)).map
      (fun steps =>
        ⟨pyStrip (List.intercalate ['\n'] (lines.take k)), steps, defaultTaskName⟩)

/-- The lines `parse_text` works on. -/
def textLines (content : List Char) : List (List Char) :=
  splitLines (pyStrip content)

/-- Index of the first line passing the step-start guard; the number of
lines when no line passes. -/
def stepStartIdx (content : List Char) : Nat :=
  ((textLines content).findIdx? isStepStartLine).getD (textLines content).length

/-- The step produced by one line of the step region, when the line
produces one and does not make the parse fail. -/
def stepOfLine (line : List Char) : Option BuildStep :=
  match lineToStep line with
  | .ok s => s
  | .error _ => none

/-- collectSteps fails exactly when some line of the region makes int()
raise. -/
theorem collectSteps_error_iff (L : List (List Char)) :
    collectSteps L = .error () ↔ ∃ line ∈ L, lineToStep line = .error () := by
  induction L with
  | nil => simp [collectSteps]
  | cons line rest ih =>
    rw [collectSteps]
    cases hl : lineToStep line with
    | error e =>
      cases e
      simp only [true_iff]
      exact ⟨line, List.mem_cons_self _ _, hl⟩
    | ok s =>
      cases hr : collectSteps rest with
      | error e =>
        cases e
        simp only [true_iff]
        obtain ⟨m, hm, he⟩ := ih.mp hr
        exact ⟨m, List.mem_cons_of_mem _ hm, he⟩
      | ok others =>
        cases s with
        | some st =>
          simp only [reduceCtorEq, false_iff]
          rintro ⟨m, hm, he⟩
          rcases List.mem_cons.mp hm with h | h
          · subst h; rw [hl] at he; cases he
          · exact absurd (ih.mpr ⟨m, h, he⟩) (by rw [hr]; simp)
        | none =>
          simp only [reduceCtorEq, false_iff]
          rintro ⟨m, hm, he⟩
          rcases List.mem_cons.mp hm with h | h
          · subst h; rw [hl] at he; cases he
          · exact absurd (ih.mpr ⟨m, h, he⟩) (by rw [hr]; simp)

/-- On success collectSteps produces, in order, one step per line whose
guard matches and whose numeric prefix parses. -/
theorem collectSteps_ok (L : List (List Char)) (s : List BuildStep)
    (h : collectSteps L = .ok s) : s = L.filterMap stepOfLine := by
  induction L generalizing s with
  | nil =>
    rw [collectSteps] at h
    cases h
    simp
  | cons line rest ih =>
    rw [collectSteps] at h
    cases hl : lineToStep line with
    | error e => rw [hl] at h; cases h
    | ok so =>
      rw [hl] at h
      cases hr : collectSteps rest with
      | error e => rw [hr] at h; cases h
      | ok others =>
        rw [hr] at h
        have hrec := ih others hr
        cases so with
        | some st =>
          cases h
          simp [List.filterMap_cons, stepOfLine, hl, hrec]
        | none =>
          cases h
          simp [List.filterMap_cons, stepOfLine, hl, hrec]

/-- C6 (amended): parse_text splits the (stripped) input into lines; the
initial prompt is the stripped newline-join of the lines before the first
line whose stripped form is nonempty, starts with a digit, and which
contains ". "; from that line on, each line whose stripped form passes the
same test contributes one step, numbered by the Python int value of the
stripped line's part before its first ". " with the rest as content, and
other lines are skipped; but the parse fails (int() raises ValueError)
exactly when some such line's numeric prefix is not a valid int literal. -/
theorem parse_text_amended (content : List Char) :
    (parse_text content = .error () ↔
      ∃ line ∈ (textLines content).drop (stepStartIdx content),
        lineToStep line = .error ()) ∧
    ∀ p, parse_text content = .ok p →
      p.initial_prompt
        = pyStrip (List.intercalate ['\n']
            ((textLines content).take (stepStartIdx content))) ∧
      p.steps = ((textLines content).drop (stepStartIdx content)).filterMap stepOfLine ∧
      p.name = defaultTaskName := by
  simp only [parse_text, stepStartIdx, textLines]
  cases hidx : (splitLines (pyStrip content)).findIdx? isStepStartLine with
  | none =>
    simp only [Option.getD_none, List.drop_length, List.take_length]
    constructor
    · simp
    · intro p hp
      cases hp
      simp
  | some k =>
    simp only [Option.getD_some]
    cases hc : collectSteps ((splitLines (pyStrip content)).drop k) with
    | error e =>
      cases e
      constructor
      · simp only [Except.map, true_iff]
        exact (collectSteps_error_iff _).mp hc
      · intro p hp
        simp only [Except.map] at hp
        cases hp
    | ok steps =>
      constructor
      · simp only [Except.map, false_iff, reduceCtorEq]
        rintro ⟨m, hm, he⟩
        exact absurd ((collectSteps_error_iff _).mpr ⟨m, hm, he⟩) (by rw [hc]; simp)
      · intro p hp
        simp only [Except.map] at hp
        cases hp
        exact ⟨rfl, collectSteps_ok _ _ hc, rfl⟩

/-- Modelled from the spec: the pattern "leading integer followed by a dot
and a space" that claim C6 uses to delimit step lines; used only to state
the counterexample. -/
def leadingIntDotSpace (line : List Char) : Bool :=
  let ds := line.takeWhile Char.isDigit
  (!ds.isEmpty) && ((line.drop ds.length).take 2 == ['.', ' '])

/-- C6 counterexample: the line "1x. b" does not match "leading integer
followed by a dot and a space" (neither raw nor stripped), yet it makes
parse_text fail with a ValueError from int("1x") — refuting "lines not
matching that pattern never become steps and never cause the parse to
fail". -/
theorem parse_text_counterexample :
    leadingIntDotSpace ("1x. b".data) = false ∧
    leadingIntDotSpace (pyStrip ("1x. b".data)) = false ∧
    parse_text ("a\n1x. b".data) = .error () := by
  refine ⟨rfl, rfl, rfl⟩

/-- Companion witness for parse_text_amended. -/
theorem parse_text_amended_witness :
    ∃ line ∈ (textLines ("a\n1x. b".data)).drop (stepStartIdx ("a\n1x. b".data)),
      lineToStep line = .error () :=
  (parse_text_amended ("a\n1x. b".data)).1.mp rfl

/-! ### Prompt delivery (`AgentLauncher.send_prompt` and
`MultiClaudeOrchestrator._send_all_steps_to_agent`) -/

/-- The agent-specific suffix appended by send_prompt:
`f"{prompt}\n\n[Agent ID: {agent.uid}]"`. -/
def agentSuffix (uid : List Char) : List Char :=
  "\n\n[Agent ID: ".data ++ uid ++ "]".data

/-- The salted prompt composed by `AgentLauncher.send_prompt`. -/
def salted_prompt (prompt uid : List Char) : List Char :=
  prompt ++ agentSuffix uid

/-- The description part of one step's block (emitted only when the
description is a non-empty, Python-truthy string). -/
def descBlock : Option (List Char) → List Char
  | some d => if d.isEmpty then [] else "\n   Description: ".data ++ d
  | none => []

/-- One step's block of the collaborative steps text:
`f"\nStep {step.number}: {step.content}"` plus the optional description. -/
def stepBlock (s : BuildStep) : List Char :=
  "\nStep ".data ++ (Nat.repr s.number).data ++ ": ".data ++ s.content
    ++ descBlock s.description

/-- The fixed instruction footer of `_send_all_steps_to_agent`. -/
def collabFooter : List Char :=
  ("\n\nChoose which step(s) to work on based on:\n" ++
   "- What others have already claimed\n" ++
   "- Your analysis of the codebase\n" ++
   "- Dependencies between steps\n" ++
   "- Your strengths and the step requirements\n\n" ++
   "Remember to claim your work before starting and update the completed work log when done.\n").data

/-- Embedding of `_send_all_steps_to_agent`: header, one block per step
accumulated in order, then the fixed footer. -/
def all_steps_text (steps : List BuildStep) : List Char :=
  steps.foldl (fun acc s => acc ++ stepBlock s) ("\n\nCOMPLETE PROJECT STEPS:\n".data)
    ++ collabFooter

/-- The payload one agent receives in the collaborative broadcast:
the steps text with the agent's uid suffix appended by send_prompt. -/
def collab_payload (steps : List BuildStep) (uid : List Char) : List Char :=
  salted_prompt (all_steps_text steps) uid

/-- pat occurs contiguously inside s. -/
def OccursIn (pat s : List Char) : Prop :=
  ∃ x y, s = x ++ pat ++ y

/-- Occurrence is preserved by embedding into a larger text. -/
theorem OccursIn.mono {pat m : List Char} (x y : List Char) (h : OccursIn pat m) :
    OccursIn pat (x ++ m ++ y) := by
  obtain ⟨a, b, rfl⟩ := h
  exact ⟨x ++ a, b ++ y, by simp⟩

/-- The step-block accumulation unfolds to a flat concatenation. -/
theorem foldl_stepBlock (steps : List BuildStep) (acc : List Char) :
    steps.foldl (fun acc s => acc ++ stepBlock s) acc
      = acc ++ (steps.map stepBlock).flatten := by
  induction steps generalizing acc with
  | nil => simp
  | cons s rest ih =>
    simp only [List.foldl_cons, List.map_cons, List.flatten_cons, ih]
    simp

/-- Every step's block occurs in the flattened block list. -/
theorem block_occurs (steps : List BuildStep) (s : BuildStep) (hs : s ∈ steps) :
    OccursIn (stepBlock s) ((steps.map stepBlock).flatten) := by
  induction steps with
  | nil => cases hs
  | cons t rest ih =>
    rcases List.mem_cons.mp hs with h | h
    · subst h
      exact ⟨[], (rest.map stepBlock).flatten, by simp⟩
    · obtain ⟨x, y, hxy⟩ := ih h
      exact ⟨stepBlock t ++ x, y, by simp [hxy]⟩

/-- Every step's block occurs in every agent's collaborative payload. -/
theorem block_occurs_payload (steps : List BuildStep) (uid : List Char)
    (s : BuildStep) (hs : s ∈ steps) :
    OccursIn (stepBlock s) (collab_payload steps uid) := by
  obtain ⟨x, y, hxy⟩ := block_occurs steps s hs
  refine ⟨"\n\nCOMPLETE PROJECT STEPS:\n".data ++ x,
          y ++ collabFooter ++ agentSuffix uid, ?_⟩
  simp [collab_payload, salted_prompt, all_steps_text, foldl_stepBlock, hxy]

/-- C5: in the collaborative broadcast, each agent's payload contains, for
every one of the steps, the header "Step {number}: " with the step's content
(and the step's description when one is present), and the payloads of any
two agents are identical except for the agent-specific uid suffix appended
by send_prompt. -/
theorem collab_broadcast_contract (steps : List BuildStep) (uid1 uid2 : List Char) :
    (∀ s ∈ steps,
       OccursIn ("Step ".data ++ (Nat.repr s.number).data ++ ": ".data ++ s.content)
         (collab_payload steps uid1)) ∧
    (∀ s ∈ steps, ∀ d, s.description = some d →
       OccursIn d (collab_payload steps uid1)) ∧
    collab_payload steps uid1 = all_steps_text steps ++ agentSuffix uid1 ∧
    collab_payload steps uid2 = all_steps_text steps ++ agentSuffix uid2 := by
  refine ⟨?_, ?_, rfl, rfl⟩
  · intro s hs
    obtain ⟨x, y, hxy⟩ := block_occurs_payload steps uid1 s hs
    refine ⟨x ++ ['\n'], descBlock s.description ++ y, ?_⟩
    rw [hxy, stepBlock]
    have hnl : "\nStep ".data = '\n' :: "Step ".data := rfl
    simp [hnl]
  · intro s hs d hd
    by_cases hde : d.isEmpty
    · have : d = [] := by
        cases d
        · rfl
        · simp [List.isEmpty] at hde
      exact ⟨[], collab_payload steps uid1, by simp [this]⟩
    · obtain ⟨x, y, hxy⟩ := block_occurs_payload steps uid1 s hs
      refine ⟨x ++ "\nStep ".data ++ (Nat.repr s.number).data ++ ": ".data
          ++ s.content ++ "\n   Description: ".data, y, ?_⟩
      rw [hxy, stepBlock, hd]
      simp [descBlock, hde]

/-- Companion witness for collab_broadcast_contract. -/
theorem collab_broadcast_contract_witness :
    OccursIn ("Step ".data ++ (Nat.repr 1).data ++ ": ".data ++ "alpha".data)
      (collab_payload [⟨1, "alpha".data, some ("beta".data)⟩] ("u1".data)) :=
  (collab_broadcast_contract [⟨1, "alpha".data, some ("beta".data)⟩]
      ("u1".data) ("u2".data)).1 _ (List.mem_singleton.mpr rfl)

/-! ### Sequential step scheduler (`MultiClaudeOrchestrator._orchestrate_steps`) -/

/-- Local bookkeeping of the sequential scheduling loop: the `step_index`
cursor and the `agents_working` set. -/
structure SchedState where
  stepIndex : Nat
  working : List Nat
deriving DecidableEq, Repr

/-- Effective bundle stride: `self.bundle_steps and self.bundle_steps > 1`
selects the bundled branch with stride N, any other value the single-step
branch (stride 1). -/
def effBundle : Option Int → Nat
  | some b => if b > 1 then b.toNat else 1
  | none => 1

/-- The assignment sweep of one loop iteration: agents are visited in
increasing id order; an agent not marked working whose ready check passes
receives the next bundle — `min(step_index + B, len(steps))` truncates at
the end — and is marked working, advancing the cursor.  `ready` is the
per-agent outcome of check_agent_ready during this iteration. -/
def assignSweep (steps : List BuildStep) (B : Nat) (ready : List Bool) :
    List Nat → SchedState → SchedState × List (Nat × List BuildStep)
  | [], st => (st, [])
  | a :: rest, st =>
    if st.working.contains a then assignSweep steps B ready rest st
    else if ready.getD a false then
      if st.stepIndex < steps.length then
        let e := min (st.stepIndex + B) steps.length
        let chunk := (steps.drop st.stepIndex).take (e - st.stepIndex)
        let r := assignSweep steps B ready rest ⟨e, a :: st.working⟩
        (r.1, (a, chunk) :: r.2)
      else assignSweep steps B ready rest st
    else assignSweep steps B ready rest st

/-- The completion sweep: drop from the working set every agent whose pane
capture contains the completion marker. -/
def completeSweep (done : List Bool) (working : List Nat) : List Nat :=
  working.filter (fun a => !done.getD a false)

/-- One iteration of the `while RUNNING and step_index < len(steps)` loop:
an assignment sweep followed by a completion sweep. -/
def schedIter (steps : List BuildStep) (B : Nat) (numAgents : Nat)
    (env : List Bool × List Bool) (st : SchedState) :
    SchedState × List (Nat × List BuildStep) :=
  let r := assignSweep steps B env.1 (List.range numAgents) st
  (⟨r.1.stepIndex, completeSweep env.2 r.1.working⟩, r.2)

/-- The sequential scheduling loop, driven by one readiness/completion
environment per iteration; the loop exits when the cursor reaches the end
of the step list, or when the environment list (the external RUNNING flag)
is exhausted. -/
def schedRun (steps : List BuildStep) (B : Nat) (numAgents : Nat) :
    List (List Bool × List Bool) → SchedState → SchedState × List (Nat × List BuildStep)
  | [], st => (st, [])
  | env :: envs, st =>
    if st.stepIndex < steps.length then
      let r1 := schedIter steps B numAgents env st
      let r2 := schedRun steps B numAgents envs r1.1
      (r2.1, r1.2 ++ r2.2)
    else (st, [])

/-- Partition of a list into contiguous chunks of size B, the last chunk
being the remainder. -/
def bundles {α : Type} (B : Nat) : List α → List (List α)
  | [] => []
  | a :: l => (a :: l.take (B - 1)) :: bundles B (l.drop (B - 1))
termination_by l => l.length
decreasing_by simp [List.length_drop]; omega

/-- For a nonempty list the first chunk is `take B` and the rest is the
bundling of `drop B`. -/
theorem bundles_cons_take_drop {α : Type} (B : Nat) (hB : 0 < B) (m : List α)
    (hm : m ≠ []) : bundles B m = m.take B :: bundles B (m.drop B) := by
  obtain ⟨b, rfl⟩ : ∃ b, B = b + 1 := ⟨B - 1, by omega⟩
  cases m with
  | nil => exact absurd rfl hm
  | cons a l =>
    rw [bundles, List.take_succ_cons, List.drop_succ_cons]
    simp

/-- A list no longer than B bundles into a single chunk. -/
theorem bundles_single {α : Type} (B : Nat) (hB : 0 < B) (m : List α)
    (hm : m ≠ []) (hlen : m.length ≤ B) : bundles B m = [m] := by
  rw [bundles_cons_take_drop B hB m hm, List.take_of_length_le hlen,
    List.drop_eq_nil_of_le hlen, bundles]

/-- Decomposition of the bundling of a segment `steps[i:j]` at an
intermediate cursor position e that is either a whole number of chunks past
i or the segment's end. -/
theorem bundles_seg {α : Type} (B : Nat) (hB : 0 < B) (steps : List α) :
    ∀ n i e j, e - i ≤ n → i ≤ e → e ≤ j → j ≤ steps.length →
    (B ∣ (e - i) ∨ e = j) →
    bundles B ((steps.drop i).take (j - i))
      = bundles B ((steps.drop i).take (e - i))
        ++ bundles B ((steps.drop e).take (j - e)) := by
  intro n
  induction n with
  | zero =>
    intro i e j hn hie _ _ _
    have : e = i := by omega
    subst this
    simp [bundles]
  | succ n ih =>
    intro i e j hn hie hej hjl hdiv
    by_cases heq : e = i
    · subst heq
      simp [bundles]
    · rcases hdiv with hdvd | rfl
      · have hBle : B ≤ e - i := Nat.le_of_dvd (by omega) hdvd
        have hiB : i + B ≤ e := by omega
        have hlen : i + B ≤ steps.length := by omega
        have hL : bundles B ((steps.drop i).take (j - i))
            = (steps.drop i).take B
              :: bundles B ((steps.drop (i + B)).take (j - (i + B))) := by
          rw [bundles_cons_take_drop B hB _ ?_]
          · congr 1
            · rw [List.take_take]
              congr 1
              omega
            · rw [List.drop_take, List.drop_drop]
              congr 2
              omega
          · intro hcon
            have hlen2 := congrArg List.length hcon
            rw [List.length_take, List.length_drop] at hlen2
            simp at hlen2
            omega
        have hF : bundles B ((steps.drop i).take (e - i))
            = (steps.drop i).take B
              :: bundles B ((steps.drop (i + B)).take (e - (i + B))) := by
          rw [bundles_cons_take_drop B hB _ ?_]
          · congr 1
            · rw [List.take_take]
              congr 1
              omega
            · rw [List.drop_take, List.drop_drop]
              congr 2
              omega
          · intro hcon
            have hlen2 := congrArg List.length hcon
            rw [List.length_take, List.length_drop] at hlen2
            simp at hlen2
            omega
        rw [hL, hF, List.cons_append]
        congr 1
        refine ih (i + B) e j (by omega) (by omega) (by omega) hjl (Or.inl ?_)
        obtain ⟨c, hc⟩ := hdvd
        cases c with
        | zero => exact absurd hc (by omega)
        | succ c2 =>
          rw [Nat.mul_succ] at hc
          exact ⟨c2, by omega⟩
      · simp [bundles, Nat.sub_self]

/-- Flattening the bundles recovers the original list. -/
theorem bundles_flatten {α : Type} (B : Nat) (l : List α) :
    (bundles B l).flatten = l := by
  suffices h : ∀ n (l : List α), l.length ≤ n → (bundles B l).flatten = l from
    h l.length l le_rfl
  intro n
  induction n with
  | zero =>
    intro l hl
    cases l with
    | nil => simp [bundles]
    | cons a t => simp at hl
  | succ n ih =>
    intro l hl
    cases l with
    | nil => simp [bundles]
    | cons a t =>
      have hl2 : t.length + 1 ≤ n + 1 := by simpa using hl
      rw [bundles, List.flatten_cons,
        ih (t.drop (B - 1)) (by simp [List.length_drop]; omega),
        List.cons_append, List.take_append_drop]

/-- The assignment sweep advances the cursor through whole bundles: it
preserves the cursor bounds, its assigned payloads are exactly the bundles
of the segment it advanced over, and the advance is a whole number of
bundles unless the sweep reached the end of the step list. -/
theorem assignSweep_spec (steps : List BuildStep) (B : Nat) (hB : 0 < B)
    (ready : List Bool) (agents : List Nat) :
    ∀ st : SchedState, st.stepIndex ≤ steps.length →
    st.stepIndex ≤ (assignSweep steps B ready agents st).1.stepIndex ∧
    (assignSweep steps B ready agents st).1.stepIndex ≤ steps.length ∧
    ((assignSweep steps B ready agents st).2.map Prod.snd
      = bundles B ((steps.drop st.stepIndex).take
          ((assignSweep steps B ready agents st).1.stepIndex - st.stepIndex))) ∧
    (B ∣ ((assignSweep steps B ready agents st).1.stepIndex - st.stepIndex) ∨
      (assignSweep steps B ready agents st).1.stepIndex = steps.length) := by
  induction agents with
  | nil =>
    intro st hle
    simp [assignSweep, bundles, hle]
  | cons a rest ih =>
    intro st hle
    by_cases hw : st.working.contains a = true
    · have hrw : assignSweep steps B ready (a :: rest) st
          = assignSweep steps B ready rest st := by
        rw [assignSweep, if_pos hw]
      rw [hrw]
      exact ih st hle
    · by_cases hr : ready.getD a false = true
      · by_cases hidx : st.stepIndex < steps.length
        · have hrw : assignSweep steps B ready (a :: rest) st
              = ((assignSweep steps B ready rest
                    ⟨min (st.stepIndex + B) steps.length, a :: st.working⟩).1,
                 (a, (steps.drop st.stepIndex).take
                    (min (st.stepIndex + B) steps.length - st.stepIndex))
                   :: (assignSweep steps B ready rest
                    ⟨min (st.stepIndex + B) steps.length, a :: st.working⟩).2) := by
            rw [assignSweep, if_neg hw, if_pos hr, if_pos hidx]
          rw [hrw]
          obtain ⟨ih1, ih2, ih3, ih4⟩ :=
            ih ⟨min (st.stepIndex + B) steps.length, a :: st.working⟩
              (min_le_right _ _)
          dsimp only at ih1 ih2 ih3 ih4
          have hie : st.stepIndex ≤ min (st.stepIndex + B) steps.length := by omega
          have hei : st.stepIndex < min (st.stepIndex + B) steps.length := by omega
          have hdiv : B ∣ (min (st.stepIndex + B) steps.length - st.stepIndex) ∨
              min (st.stepIndex + B) steps.length
                = (assignSweep steps B ready rest
                    ⟨min (st.stepIndex + B) steps.length, a :: st.working⟩).1.stepIndex := by
            by_cases hcase : st.stepIndex + B ≤ steps.length
            · have hmin : min (st.stepIndex + B) steps.length - st.stepIndex = B := by
                omega
              refine Or.inl ?_
              rw [hmin]
            · exact Or.inr (by omega)
          refine ⟨le_trans hie ih1, ih2, ?_, ?_⟩
          · simp only [List.map_cons]
            rw [ih3]
            have hne2 : (steps.drop st.stepIndex).take
                (min (st.stepIndex + B) steps.length - st.stepIndex) ≠ [] := by
              intro hcon
              have hlen2 := congrArg List.length hcon
              rw [List.length_take, List.length_drop] at hlen2
              simp at hlen2
              omega
            have hlenle : ((steps.drop st.stepIndex).take
                (min (st.stepIndex + B) steps.length - st.stepIndex)).length ≤ B := by
              rw [List.length_take, List.length_drop]
              omega
            rw [bundles_seg B hB steps
              (min (st.stepIndex + B) steps.length - st.stepIndex)
              st.stepIndex (min (st.stepIndex + B) steps.length)
              ((assignSweep steps B ready rest
                  ⟨min (st.stepIndex + B) steps.length, a :: st.working⟩).1.stepIndex)
              le_rfl hie ih1 ih2 hdiv,
              bundles_single B hB _ hne2 hlenle]
            rfl
          · dsimp only
            rcases ih4 with hd | hend
            · rcases hdiv with hd2 | hend2
              · refine Or.inl ?_
                obtain ⟨c, hc⟩ := hd
                obtain ⟨c2, hc2⟩ := hd2
                exact ⟨c + c2, by rw [Nat.mul_add]; omega⟩
              · rcases hd with ⟨c, hc⟩
                by_cases hcase2 : st.stepIndex + B ≤ steps.length
                · exact Or.inl ⟨1, by omega⟩
                · exact Or.inr (by omega)
            · exact Or.inr hend
        · have hrw : assignSweep steps B ready (a :: rest) st
              = assignSweep steps B ready rest st := by
            rw [assignSweep, if_neg hw, if_pos hr, if_neg hidx]
          rw [hrw]
          exact ih st hle
      · have hrw : assignSweep steps B ready (a :: rest) st
            = assignSweep steps B ready rest st := by
          rw [assignSweep, if_neg hw, if_neg hr]
        rw [hrw]
        exact ih st hle

/-- The whole sequential run advances through whole bundles: over any
sequence of readiness/completion environments the assigned payloads are
exactly the bundles of the segment between the initial and final cursor. -/
theorem schedRun_spec (steps : List BuildStep) (B : Nat) (hB : 0 < B)
    (numAgents : Nat) (envs : List (List Bool × List Bool)) :
    ∀ st : SchedState, st.stepIndex ≤ steps.length →
    st.stepIndex ≤ (schedRun steps B numAgents envs st).1.stepIndex ∧
    (schedRun steps B numAgents envs st).1.stepIndex ≤ steps.length ∧
    ((schedRun steps B numAgents envs st).2.map Prod.snd
      = bundles B ((steps.drop st.stepIndex).take
          ((schedRun steps B numAgents envs st).1.stepIndex - st.stepIndex))) := by
  induction envs with
  | nil =>
    intro st hle
    simp [schedRun, bundles, hle]
  | cons env envs ih =>
    intro st hle
    by_cases hidx : st.stepIndex < steps.length
    · have hrw : schedRun steps B numAgents (env :: envs) st
          = ((schedRun steps B numAgents envs
               ⟨(assignSweep steps B env.1 (List.range numAgents) st).1.stepIndex,
                completeSweep env.2
                  (assignSweep steps B env.1 (List.range numAgents) st).1.working⟩).1,
             (assignSweep steps B env.1 (List.range numAgents) st).2
               ++ (schedRun steps B numAgents envs
               ⟨(assignSweep steps B env.1 (List.range numAgents) st).1.stepIndex,
                completeSweep env.2
                  (assignSweep steps B env.1 (List.range numAgents) st).1.working⟩).2) := by
        rw [schedRun, if_pos hidx]
        rfl
      rw [hrw]
      obtain ⟨a1, a2, a3, a4⟩ :=
        assignSweep_spec steps B hB env.1 (List.range numAgents) st hle
      obtain ⟨r1, r2, r3⟩ := ih
        ⟨(assignSweep steps B env.1 (List.range numAgents) st).1.stepIndex,
         completeSweep env.2
           (assignSweep steps B env.1 (List.range numAgents) st).1.working⟩ a2
      dsimp only at r1 r2 r3
      have hdiv : B ∣ ((assignSweep steps B env.1 (List.range numAgents) st).1.stepIndex
            - st.stepIndex) ∨
          (assignSweep steps B env.1 (List.range numAgents) st).1.stepIndex
            = (schedRun steps B numAgents envs
               ⟨(assignSweep steps B env.1 (List.range numAgents) st).1.stepIndex,
                completeSweep env.2
                  (assignSweep steps B env.1 (List.range numAgents) st).1.working⟩).1.stepIndex := by
        rcases a4 with hd | hend
        · exact Or.inl hd
        · exact Or.inr (by omega)
      refine ⟨le_trans a1 r1, r2, ?_⟩
      rw [List.map_append, a3, r3]
      exact (bundles_seg B hB steps
        ((assignSweep steps B env.1 (List.range numAgents) st).1.stepIndex - st.stepIndex)
        st.stepIndex
        (assignSweep steps B env.1 (List.range numAgents) st).1.stepIndex
        (schedRun steps B numAgents envs
          ⟨(assignSweep steps B env.1 (List.range numAgents) st).1.stepIndex,
           completeSweep env.2
             (assignSweep steps B env.1 (List.range numAgents) st).1.working⟩).1.stepIndex
        le_rfl a1 r1 r2 hdiv).symm
    · have hrw : schedRun steps B numAgents (env :: envs) st = (st, []) := by
        rw [schedRun, if_neg hidx]
      rw [hrw]
      simp [bundles, hle]

/-- Five concrete steps for the worked bundling example of the spec. -/
def exampleFiveSteps : List BuildStep :=
  [⟨1, ['a'], none⟩, ⟨2, ['b'], none⟩, ⟨3, ['c'], none⟩, ⟨4, ['d'], none⟩,
   ⟨5, ['e'], none⟩]

/-- C2: for every bundle configuration, agent count and readiness history,
the sequential scheduler's successive assignments are the contiguous bundles
of the effective stride taken in ascending position order — their
concatenation is exactly the prefix of the step list up to the final cursor,
so each step is assigned exactly once and the final bundle is the remainder
when the stride exceeds what is left.  In particular for 5 steps with bundle
size 2 the assignments are {1,2}, {3,4}, {5} in order, with 3 agents in a
single all-ready sweep as with 1 agent over three sweeps. -/
theorem sequential_scheduler_contract (steps : List BuildStep)
    (bundleOpt : Option Int) (numAgents : Nat)
    (envs : List (List Bool × List Bool)) :
    ((schedRun steps (effBundle bundleOpt) numAgents envs ⟨0, []⟩).2.map Prod.snd
      = bundles (effBundle bundleOpt)
          (steps.take
            (schedRun steps (effBundle bundleOpt) numAgents envs ⟨0, []⟩).1.stepIndex)) ∧
    (((schedRun steps (effBundle bundleOpt) numAgents envs ⟨0, []⟩).2.map Prod.snd).flatten
      = steps.take
          (schedRun steps (effBundle bundleOpt) numAgents envs ⟨0, []⟩).1.stepIndex) ∧
    (schedRun steps (effBundle bundleOpt) numAgents envs ⟨0, []⟩).1.stepIndex
      ≤ steps.length ∧
    ((schedRun exampleFiveSteps (effBundle (some 2)) 3
        [(List.replicate 3 true, List.replicate 3 false)] ⟨0, []⟩).2.map Prod.snd
      = [[⟨1, ['a'], none⟩, ⟨2, ['b'], none⟩], [⟨3, ['c'], none⟩, ⟨4, ['d'], none⟩],
         [⟨5, ['e'], none⟩]]) ∧
    ((schedRun exampleFiveSteps (effBundle (some 2)) 1
        (List.replicate 3 ([true], [true])) ⟨0, []⟩).2.map Prod.snd
      = [[⟨1, ['a'], none⟩, ⟨2, ['b'], none⟩], [⟨3, ['c'], none⟩, ⟨4, ['d'], none⟩],
         [⟨5, ['e'], none⟩]]) := by
  have hB : 0 < effBundle bundleOpt := by
    cases bundleOpt with
    | none => simp [effBundle]
    | some b =>
      simp only [effBundle]
      split_ifs with h
      · omega
      · omega
  obtain ⟨s1, s2, s3⟩ :=
    schedRun_spec steps (effBundle bundleOpt) hB numAgents envs ⟨0, []⟩ (Nat.zero_le _)
  dsimp only at s1 s2 s3
  simp only [List.drop_zero, Nat.sub_zero] at s3
  refine ⟨s3, ?_, s2, by decide, by decide⟩
  rw [s3, bundles_flatten]

/-! ### Orchestrator run and cleanup (`MultiClaudeOrchestrator.run` and
`MultiClaudeOrchestrator._cleanup`) -/

/-- Observable events of one orchestrator run. -/
inductive RunEvent
  | createSessionFailed
  | launchPhase
  | initialPrompts
  | orchestrate
  | errorCaught
  | sendExit (agent : Nat)
  | killSession
  | coordCleanup
deriving DecidableEq, Repr

/-- Run configuration and environment: agent count, the two cleanup flags,
whether the terminal driver managed to create the session, and which stage
of the try-body raises (none: no exception; 0: launching agents; 1: initial
prompts; 2 or more: step orchestration). -/
structure RunConfig where
  agents : Nat
  kill_on_exit : Bool
  cleanup_coordination : Bool
  createOk : Bool
  failAt : Option Nat
deriving DecidableEq, Repr

/-- Trace of `MultiClaudeOrchestrator._cleanup`: send the /exit instruction
to every agent pane, then optionally kill the tmux session and optionally
reset the coordination files, per the two flags. -/
def cleanupTrace (cfg : RunConfig) : List RunEvent :=
  (List.range cfg.agents).map RunEvent.sendExit
    ++ (if cfg.kill_on_exit then [RunEvent.killSession] else [])
    ++ (if cfg.cleanup_coordination then [RunEvent.coordCleanup] else [])

/-- The stages of the try-body executed before the exception, if any. -/
def bodyTrace : Option Nat → List RunEvent
  | none => [RunEvent.launchPhase, RunEvent.initialPrompts, RunEvent.orchestrate]
  | some 0 => []
  | some 1 => [RunEvent.launchPhase]
  | some _ => [RunEvent.launchPhase, RunEvent.initialPrompts]

/-- Trace of `MultiClaudeOrchestrator.run`: when the terminal driver cannot
create the session, run returns immediately — before the try/finally is
entered; otherwise the body runs (an exception at any stage is caught and
printed) and the finally-block runs `_cleanup` unconditionally. -/
def runTrace (cfg : RunConfig) : List RunEvent :=
  if cfg.createOk then
    bodyTrace cfg.failAt
      ++ (if (cfg.failAt).isSome then [RunEvent.errorCaught] else [])
      ++ cleanupTrace cfg
  else [RunEvent.createSessionFailed]

/-- C3 counterexample: when session creation fails, run returns without
executing any part of the cleanup sequence — no agent receives the
graceful-exit instruction and the coordination store is not reset, even
though both cleanup flags are set — refuting "whatever stage fails,
including the terminal driver failing to create the initial session, the
cleanup sequence is executed". -/
theorem run_no_cleanup_counterexample :
    runTrace ⟨2, true, true, false, none⟩ = [RunEvent.createSessionFailed] ∧
    RunEvent.sendExit 0 ∉ runTrace ⟨2, true, true, false, none⟩ ∧
    RunEvent.killSession ∉ runTrace ⟨2, true, true, false, none⟩ ∧
    RunEvent.coordCleanup ∉ runTrace ⟨2, true, true, false, none⟩ := by
  decide

/-- C3 (amended): whenever the initial session creation succeeds, the
cleanup sequence (graceful exit to every agent, then optional session
teardown and optional coordination reset per configuration) runs in full
whatever stage of the body fails; but when session creation fails, run
returns immediately and no cleanup is executed. -/
theorem run_cleanup_contract (cfg : RunConfig) :
    (cfg.createOk = true →
      (∃ pre, runTrace cfg = pre ++ cleanupTrace cfg) ∧
      (∀ i < cfg.agents, RunEvent.sendExit i ∈ runTrace cfg) ∧
      (cfg.kill_on_exit = true → RunEvent.killSession ∈ runTrace cfg) ∧
      (cfg.cleanup_coordination = true → RunEvent.coordCleanup ∈ runTrace cfg)) ∧
    (cfg.createOk = false →
      runTrace cfg = [RunEvent.createSessionFailed]) := by
  constructor
  · intro hok
    have hrw : runTrace cfg
        = bodyTrace cfg.failAt
            ++ (if (cfg.failAt).isSome then [RunEvent.errorCaught] else [])
            ++ cleanupTrace cfg := by
      rw [runTrace, if_pos hok]
    have hcl : ∀ e ∈ cleanupTrace cfg, e ∈ runTrace cfg := by
      intro e he
      rw [hrw, List.append_assoc]
      exact List.mem_append_right _ (List.mem_append_right _ he)
    refine ⟨⟨_, by rw [hrw, List.append_assoc]⟩, ?_, ?_, ?_⟩
    · intro i hi
      refine hcl _ ?_
      exact List.mem_append_left _ (List.mem_append_left _
        (List.mem_map_of_mem _ (List.mem_range.mpr hi)))
    · intro hk
      refine hcl _ ?_
      refine List.mem_append_left _ (List.mem_append_right _ ?_)
      simp [hk]
    · intro hc
      refine hcl _ ?_
      refine List.mem_append_right _ ?_
      simp [hc]
  · intro hko
    rw [runTrace, if_neg (by simp [hko])]

/-- Companion witness for run_cleanup_contract. -/
theorem run_cleanup_contract_witness :
    RunEvent.coordCleanup ∈ runTrace ⟨2, true, true, true, some 0⟩ :=
  ((run_cleanup_contract ⟨2, true, true, true, some 0⟩).1 rfl).2.2.2 rfl

/-! ### Agent registration (`CoordinationManager.register_agent`) -/

/-- One record of the active-agent registry. -/
structure AgentEntry where
  agent_id : Nat
  started : Int
  status : String
deriving DecidableEq, Repr

/-- The state of the active-agent registry file as register_agent finds it:
missing (exists() is false), existing but not valid JSON (json.loads
raises), or valid with its parsed contents. -/
inductive RegistryFile
  | missing
  | corrupt
  | valid (entries : List (String × AgentEntry))
deriving DecidableEq, Repr

/-- Embedding of `CoordinationManager.register_agent` around the generated
uid: a missing registry file is replaced by the empty dict; an existing file
is read and json-decoded, which raises on a corrupt file; the record
`{agent_id, started, status: active}` is stored under the fresh uid
(replacing any record under the same key, as a dict assignment does) and
the uid is returned. -/
def register_agent (file : RegistryFile) (uid : String) (agent_id : Nat)
    (now : Int) : Except Unit (List (String × AgentEntry) × String) :=
  match file with
  | .missing => .ok ([(uid, ⟨agent_id, now, "active"⟩)], uid)
  | .corrupt => .error ()
  | .valid entries =>
    .ok (entries.filter (fun e => e.1 != uid) ++ [(uid, ⟨agent_id, now, "active"⟩)], uid)

/-- C4 counterexample: an existing-but-unparseable registry file makes
register_agent raise instead of being treated as empty — refuting
"register_agent never fails ... including an unreadable or corrupt
registry". -/
theorem register_agent_corrupt_raises :
    register_agent .corrupt "u" 0 0 = .error () := rfl

/-- C4 (amended): register_agent treats a missing registry file as empty —
it still records `{agent_id, started, status: active}` under the fresh uid
and returns the uid — and behaves likewise on a readable registry; but when
the registry file exists and cannot be parsed, the call raises instead of
treating it as empty. -/
theorem register_agent_contract (file : RegistryFile) (uid : String)
    (agent_id : Nat) (now : Int) :
    (file ≠ .corrupt →
      ∃ entries, register_agent file uid agent_id now = .ok (entries, uid) ∧
        (uid, ⟨agent_id, now, "active"⟩) ∈ entries) ∧
    (file = .corrupt →
      register_agent file uid agent_id now = .error ()) := by
  cases file with
  | missing =>
    exact ⟨fun _ => ⟨_, rfl, List.mem_singleton.mpr rfl⟩, fun h => by cases h⟩
  | corrupt =>
    exact ⟨fun h => absurd rfl h, fun _ => rfl⟩
  | valid entries =>
    refine ⟨fun _ => ⟨_, rfl, ?_⟩, fun h => by cases h⟩
    exact List.mem_append_right _ (List.mem_singleton.mpr rfl)

/-- Companion witness for register_agent_contract. -/
theorem register_agent_contract_witness :
    ∃ entries, register_agent .missing "u" 1 5 = .ok (entries, "u") ∧
      ("u", ⟨1, 5, "active"⟩) ∈ entries :=
  (register_agent_contract .missing "u" 1 5).1 (by decide)

/-! ### Agent launch and readiness (`AgentLauncher.launch_agent` and
`AgentLauncher.check_agent_ready`) -/

/-- Bool test for contiguous substring occurrence. -/
def containsSub (pat : List Char) : List Char → Bool
  | [] => pat.isEmpty
  | c :: rest => pat.isPrefixOf (c :: rest) || containsSub pat rest

/-- The fixed literal markers whose presence in captured pane text
classifies an agent as ready (`ready_indicators` of check_agent_ready). -/
def ready_indicators : List (List Char) :=
  ["Welcome to Claude Code".data, "/help for help".data,
   "? for shortcuts".data, "cwd:".data, "Press Esc twice".data]

/-- Embedding of `AgentLauncher.check_agent_ready`: the captured pane text
is ready when it contains at least one marker. -/
def check_agent_ready (output : List Char) : Bool :=
  ready_indicators.any (fun ind => containsSub ind output)

/-- Outcome of launching one agent. -/
structure LaunchResult where
  status : String
  registered : Bool
  uid : String
  messages : List String
deriving DecidableEq, Repr

/-- Embedding of `AgentLauncher.launch_agent` after the terminal-driver
commands: the one-shot readiness check selects only a log message; the
agent is registered with the coordination store unconditionally, its uid
recorded, and its status set to "ready" before returning. -/
def launch_agent (capturedOutput : List Char) (uid : String) : LaunchResult :=
  { status := "ready"
    registered := true
    uid := uid
    messages :=
      if check_agent_ready capturedOutput then ["launched successfully"]
      else ["ready check failed, but continuing"] }

/-- C9: launch_agent always registers the agent with the coordination store
and leaves it in status "ready": a false readiness check changes only the
log message — it never fails the launch and never produces status
"error". -/
theorem launch_agent_contract (capturedOutput : List Char) (uid : String) :
    (launch_agent capturedOutput uid).status = "ready" ∧
    (launch_agent capturedOutput uid).registered = true ∧
    (launch_agent capturedOutput uid).uid = uid ∧
    (launch_agent capturedOutput uid).status ≠ "error" ∧
    (check_agent_ready capturedOutput = false →
      launch_agent capturedOutput uid
        = ⟨"ready", true, uid, ["ready check failed, but continuing"]⟩) := by
  refine ⟨rfl, rfl, rfl, by simp [launch_agent], ?_⟩
  intro h
  simp [launch_agent, h]

/-- Companion witness for launch_agent_contract. -/
theorem launch_agent_contract_witness :
    check_agent_ready [] = false ∧
    launch_agent [] "u"
      = ⟨"ready", true, "u", ["ready check failed, but continuing"]⟩ :=
  ⟨rfl, (launch_agent_contract [] "u").2.2.2.2 rfl⟩

/-! ### Unique id generation (`CoordinationManager.register_agent`)

The uid is `f"agent_{timestamp}_{suffix}"` where the suffix is the first
four hex characters of `md5(f"{agent_id}{time.time()}".encode())`.  MD5 is
embedded executably over byte lists with 32-bit words as naturals reduced
mod 2^32. -/

/-- 2 to the 32rd, the word modulus. -/
def w32 : Nat := 4294967296

/-- 32-bit left rotation. -/
def rotl32 (x n : Nat) : Nat := ((x <<< n) % w32) ||| (x >>> (32 - n))

/-- The 64 sine-derived MD5 round constants. -/
def md5K : List Nat :=
  [3614090360, 3905402710, 606105819, 3250441966, 4118548399, 1200080426,
   2821735955, 4249261313, 1770035416, 2336552879, 4294925233, 2304563134,
   1804603682, 4254626195, 2792965006, 1236535329, 4129170786, 3225465664,
   643717713, 3921069994, 3593408605, 38016083, 3634488961, 3889429448,
   568446438, 3275163606, 4107603335, 1163531501, 2850285829, 4243563512,
   1735328473, 2368359562, 4294588738, 2272392833, 1839030562, 4259657740,
   2763975236, 1272893353, 4139469664, 3200236656, 681279174, 3936430074,
   3572445317, 76029189, 3654602809, 3873151461, 530742520, 3299628645,
   4096336452, 1126891415, 2878612391, 4237533241, 1700485571, 2399980690,
   4293915773, 2240044497, 1873313359, 4264355552, 2734768916, 1309151649,
   4149444226, 3174756917, 718787259, 3951481745]

/-- The per-round MD5 left-rotation amounts. -/
def md5S : List Nat :=
  [7, 12, 17, 22, 7, 12, 17, 22, 7, 12, 17, 22, 7, 12, 17, 22,
   5, 9, 14, 20, 5, 9, 14, 20, 5, 9, 14, 20, 5, 9, 14, 20,
   4, 11, 16, 23, 4, 11, 16, 23, 4, 11, 16, 23, 4, 11, 16, 23,
   6, 10, 15, 21, 6, 10, 15, 21, 6, 10, 15, 21, 6, 10, 15, 21]

/-- The n little-endian bytes of x. -/
def leBytes : Nat → Nat → List Nat
  | 0, _ => []
  | n + 1, x => (x % 256) :: leBytes n (x / 256)

/-- MD5 padding: 0x80, zeros up to 56 mod 64, then the 8-byte little-endian
bit length. -/
def md5pad (msg : List Nat) : List Nat :=
  msg ++ [128] ++ List.replicate ((119 - msg.length % 64) % 64) 0
    ++ leBytes 8 (msg.length * 8)

/-- The little-endian 32-bit word at the head of a byte list. -/
def leWord (b : List Nat) : Nat :=
  b.getD 0 0 + 256 * b.getD 1 0 + 65536 * b.getD 2 0 + 16777216 * b.getD 3 0

/-- The 16 message words of one 64-byte block. -/
def blockWords (block : List Nat) : List Nat :=
  (List.range 16).map (fun j => leWord (block.drop (4 * j)))

/-- One MD5 round (i from 0 to 63) over the running (a, b, c, d) state. -/
def md5round (M : List Nat) (st : Nat × Nat × Nat × Nat) (i : Nat) :
    Nat × Nat × Nat × Nat :=
  let a := st.1
  let b := st.2.1
  let c := st.2.2.1
  let d := st.2.2.2
  let f :=
    if i < 16 then (b &&& c) ||| ((w32 - 1 - b) &&& d)
    else if i < 32 then (d &&& b) ||| ((w32 - 1 - d) &&& c)
    else if i < 48 then b ^^^ c ^^^ d
    else c ^^^ (b ||| (w32 - 1 - d))
  let g :=
    if i < 16 then i
    else if i < 32 then (5 * i + 1) % 16
    else if i < 48 then (3 * i + 5) % 16
    else (7 * i) % 16
  let tmp := (a + f + md5K.getD i 0 + M.getD g 0) % w32
  (d, (b + rotl32 tmp (md5S.getD i 0)) % w32, b, c)

/-- One 64-byte block: 64 rounds, then add into the chaining state. -/
def md5block (st : Nat × Nat × Nat × Nat) (block : List Nat) :
    Nat × Nat × Nat × Nat :=
  let r := (List.range 64).foldl (md5round (blockWords block)) st
  ((st.1 + r.1) % w32, (st.2.1 + r.2.1) % w32,
   (st.2.2.1 + r.2.2.1) % w32, (st.2.2.2 + r.2.2.2) % w32)

/-- Fold md5block over the 64-byte blocks of the padded message (the fuel
argument bounds the number of blocks so that the recursion is structural
and computes inside the kernel). -/
def md5loop : Nat → (Nat × Nat × Nat × Nat) → List Nat → Nat × Nat × Nat × Nat
  | 0, st, _ => st
  | _ + 1, st, [] => st
  | n + 1, st, msg => md5loop n (md5block st (msg.take 64)) (msg.drop 64)

/-- The 16-byte MD5 digest of a byte string. -/
def md5bytes (msg : List Nat) : List Nat :=
  let padded := md5pad msg
  let r := md5loop padded.length
    (1732584193, 4023233417, 2562383102, 271733878) padded
  leBytes 4 r.1 ++ leBytes 4 r.2.1 ++ leBytes 4 r.2.2.1 ++ leBytes 4 r.2.2.2

/-- Lowercase hex digit. -/
def hexDigit (n : Nat) : Char :=
  if n < 10 then Char.ofNat (48 + n) else Char.ofNat (87 + n)

/-- hexdigest(): two lowercase hex characters per digest byte. -/
def hexdigest (bytes : List Nat) : List Char :=
  (bytes.map (fun b => [hexDigit (b / 16), hexDigit (b % 16)])).flatten

/-- encode(): the byte values of an ASCII string. -/
def strBytes (s : List Char) : List Nat := s.map Char.toNat

/-- The uid produced by register_agent:
agent_, then the strftime("%Y%m%d_%H%M%S") timestamp, an underscore, and
the first four hex characters of the md5 of f"{agent_id}{time}" where time
is the str() rendering of the time.time() float read during the call. -/
def register_uid (timestamp : List Char) (agent_id : Nat) (timeStr : List Char) :
    List Char :=
  "agent_".data ++ timestamp ++ "_".data
    ++ (hexdigest (md5bytes (strBytes ((Nat.repr agent_id).data ++ timeStr)))).take 4

set_option maxRecDepth 100000 in
/-- C8 counterexample: agents 0 and 1 registered within second 1700000000
(timestamp 20231114_221320), with time.time() readings 1700000000.1 and
1700000000.060294, hash to the same 4-hex-character md5 prefix "adc6" and
hence to identical uids — refuting "the time-based part plus the short hash
suffix guarantees no collision". -/
theorem register_uid_collision :
    register_uid ("20231114_221320".data) 0 ("1700000000.1".data)
      = register_uid ("20231114_221320".data) 1 ("1700000000.060294".data) ∧
    (0 : Nat) ≠ 1 := by
  constructor
  · decide
  · decide

/-- C8 (amended): for two register_agent calls within the same second (equal
second-resolution timestamps), the uids are distinct iff the 4-character
truncated md5 digests of the hash inputs f"{agent_id}{time.time()}" differ;
distinct agent ids alone do not guarantee this, since the suffix ranges over
only 65536 values. -/
theorem register_uid_distinct_iff (ts : List Char) (a1 a2 : Nat)
    (t1 t2 : List Char) :
    register_uid ts a1 t1 ≠ register_uid ts a2 t2 ↔
      (hexdigest (md5bytes (strBytes ((Nat.repr a1).data ++ t1)))).take 4
        ≠ (hexdigest (md5bytes (strBytes ((Nat.repr a2).data ++ t2)))).take 4 := by
  unfold register_uid
  constructor
  · intro h hc
    exact h (by rw [hc])
  · intro h hc
    apply h
    exact List.append_cancel_left hc

set_option maxRecDepth 100000 in
/-- Companion witness for register_uid_distinct_iff. -/
theorem register_uid_distinct_iff_witness :
    register_uid ("20231114_221320".data) 0 ("t1".data)
      ≠ register_uid ("20231114_221320".data) 1 ("t2".data) :=
  (register_uid_distinct_iff ("20231114_221320".data) 0 1
    ("t1".data) ("t2".data)).mpr (by decide)

end Builder
